import Mathlib

set_option maxHeartbeats 1000000

/- Verification development for the image-generation client (apps/gemini.py).
   We give a shallow embedding of the retry classifier, the retry loop
   `call_openai_with_retry`, the raw streaming transport `call_api_raw`,
   the vendor image-field post-processing and the mixed-content extractor
   `save_mixed_content`, and prove the specified properties about them.
   Python strings are modelled as lists of characters and Python
   `str.lower` as character-wise ASCII `Char.toLower`. -/

abbrev Str := List Char

/- Python substring containment (`needle in haystack`). -/
def containsSub (needle : Str) : Str → Bool
  | [] => needle.isEmpty
  | c :: rest => needle.isPrefixOf (c :: rest) || containsSub needle rest

/- Python `str.lower()`, modelled character-wise on ASCII. -/
def lowerStr (s : Str) : Str := s.map Char.toLower

theorem containsSub_iff (n h : Str) :
    containsSub n h = true ↔ ∃ p q, h = p ++ n ++ q := by
  induction h with
  | nil =>
    simp only [containsSub, List.isEmpty_iff]
    constructor
    · rintro rfl; exact ⟨[], [], rfl⟩
    · rintro ⟨p, q, hpq⟩
      rcases List.append_eq_nil.mp (List.append_eq_nil.mp hpq.symm).1 with ⟨_, h2⟩
      exact h2
  | cons c rest ih =>
    simp only [containsSub, Bool.or_eq_true, ih]
    constructor
    · rintro (hp | ⟨p, q, rfl⟩)
      · rcases List.isPrefixOf_iff_prefix.mp hp with ⟨t, ht⟩
        exact ⟨[], t, ht.symm⟩
      · exact ⟨c :: p, q, rfl⟩
    · rintro ⟨p, q, hpq⟩
      match p, hpq with
      | [], hpq =>
        left
        exact List.isPrefixOf_iff_prefix.mpr ⟨q, by simpa using hpq.symm⟩
      | p0 :: ps, hpq =>
        right
        simp only [List.cons_append] at hpq
        exact ⟨ps, q, (List.cons.injEq _ _ _ _ ▸ hpq).2⟩

/- ===== Retry Classifier (is_quota_exceeded_error and the timeout test
   performed inline in call_openai_with_retry) ===== -/

def quota_keywords : List Str :=
  ["exceeded your current quota".toList, "quota exceeded".toList,
   "billing details".toList, "plan and billing".toList]

def is_quota_exceeded_error (msg : Str) : Bool :=
  quota_keywords.any (fun kw => containsSub kw (lowerStr msg))

def is_timeout_error (msg : Str) : Bool :=
  containsSub "timeout".toList (lowerStr msg) ||
    containsSub "timed out".toList (lowerStr msg)

inductive ErrClass where
  | quota
  | timeout
  | other
deriving DecidableEq

/- The classification order used by the retry loop: quota first, then the
   timeout test, otherwise non-retryable. -/
def classifyError (msg : Str) : ErrClass :=
  if is_quota_exceeded_error msg then ErrClass.quota
  else if is_timeout_error msg then ErrClass.timeout
  else ErrClass.other

/- ===== Retry loop (call_openai_with_retry) =====
   The environment `calls i` gives the outcome of the i-th client call:
   `none` means the call succeeds, `some msg` means it raises an exception
   whose message is `msg`. The result records the observable events (calls
   and sleeps, in order) together with the final outcome. -/

inductive RetryEvent where
  | call : RetryEvent
  | sleep (secs : Nat) : RetryEvent
deriving DecidableEq

inductive RetryOutcome where
  | success
  | raised (msg : Str)
  | exhausted (n : Nat)
deriving DecidableEq

def retryGo (calls : Nat → Option Str) (maxRetries retryDelay : Nat)
    (attempt : Nat) : List RetryEvent × RetryOutcome :=
  if _h : attempt < maxRetries then
    match calls attempt with
    | none => ([RetryEvent.call], RetryOutcome.success)
    | some msg =>
      if is_quota_exceeded_error msg then
        if attempt + 1 < maxRetries then
          let tailRun := retryGo calls maxRetries retryDelay (attempt + 1)
          if retryDelay > 0 then
            (RetryEvent.call :: RetryEvent.sleep retryDelay :: tailRun.1, tailRun.2)
          else
            (RetryEvent.call :: tailRun.1, tailRun.2)
        else ([RetryEvent.call], RetryOutcome.raised msg)
      else if is_timeout_error msg then
        if attempt + 1 < maxRetries then
          let tailRun := retryGo calls maxRetries retryDelay (attempt + 1)
          (RetryEvent.call :: tailRun.1, tailRun.2)
        else ([RetryEvent.call], RetryOutcome.raised msg)
      else ([RetryEvent.call], RetryOutcome.raised msg)
  else ([], RetryOutcome.exhausted maxRetries)
termination_by maxRetries - attempt
decreasing_by all_goals omega

def call_openai_with_retry (calls : Nat → Option Str)
    (maxRetries retryDelay : Nat) : List RetryEvent × RetryOutcome :=
  retryGo calls maxRetries retryDelay 0

def isCallEvent : RetryEvent → Bool
  | RetryEvent.call => true
  | _ => false

def numCalls (evs : List RetryEvent) : Nat := (evs.filter isCallEvent).length

def sleepsOf : List RetryEvent → List Nat
  | [] => []
  | RetryEvent.sleep s :: r => s :: sleepsOf r
  | RetryEvent.call :: r => sleepsOf r

theorem numCalls_cons_call (evs : List RetryEvent) :
    numCalls (RetryEvent.call :: evs) = numCalls evs + 1 := by
  simp [numCalls, List.filter, isCallEvent]

theorem numCalls_cons_sleep (s : Nat) (evs : List RetryEvent) :
    numCalls (RetryEvent.sleep s :: evs) = numCalls evs := by
  simp [numCalls, List.filter, isCallEvent]

theorem retryGo_all_quota (calls : Nat → Option Str) (N d : Nat) :
    ∀ k a, N - a = k → a < N →
    (∀ i, a ≤ i → i < N →
      ∃ m, calls i = some m ∧ is_quota_exceeded_error m = true) →
    numCalls (retryGo calls N d a).1 = N - a ∧
    sleepsOf (retryGo calls N d a).1 =
      (if 0 < d then List.replicate (N - a - 1) d else []) ∧
    ∃ m, calls (N - 1) = some m ∧
      (retryGo calls N d a).2 = RetryOutcome.raised m ∧
      is_quota_exceeded_error m = true := by
  intro k
  induction k with
  | zero => intro a hk ha _; omega
  | succ k ih =>
    intro a hk ha hq
    obtain ⟨m, hm, hqm⟩ := hq a le_rfl ha
    rw [retryGo]
    simp only [ha, dite_true, hm, hqm, if_true]
    by_cases hlast : a + 1 < N
    · obtain ⟨ihc, ihs, ihm⟩ := ih (a + 1) (by omega) hlast
        (fun i hi1 hi2 => hq i (by omega) hi2)
      by_cases hd : 0 < d
      · simp only [hlast, if_true, hd, ite_true]
        refine ⟨?_, ?_, ihm⟩
        · rw [numCalls_cons_call, numCalls_cons_sleep, ihc]
          omega
        · simp only [sleepsOf, ihs, hd, if_true]
          have : N - a - 1 = (N - (a + 1) - 1) + 1 := by omega
          rw [this, List.replicate_succ]
      · simp only [hlast, if_true, hd, ite_false]
        refine ⟨?_, ?_, ihm⟩
        · rw [numCalls_cons_call, ihc]
          omega
        · simp only [sleepsOf, ihs, hd, if_false]
    · have haN : a = N - 1 := by omega
      simp only [hlast, ite_false]
      refine ⟨?_, ?_, m, haN ▸ hm, rfl, hqm⟩
      · rw [show ([RetryEvent.call] : List RetryEvent) =
          RetryEvent.call :: [] from rfl, numCalls_cons_call]
        simp [numCalls]
        omega
      · have : N - a - 1 = 0 := by omega
        simp [sleepsOf, this]

/-- C1: for every max_retries = N ≥ 1, if every fallback attempt raises an
error classified as quota-exceeded, `call_openai_with_retry` makes exactly N
attempts, sleeping `retry_delay` seconds between attempts only when
`retry_delay > 0` (so N - 1 sleeps when the delay is positive and none
otherwise), and then fails by re-raising the quota error of the final
attempt, signaling quota exhaustion. -/
theorem c1_quota_exhaustion (N d : Nat) (calls : Nat → Option Str)
    (hN : 1 ≤ N)
    (hq : ∀ i, i < N →
      ∃ m, calls i = some m ∧ is_quota_exceeded_error m = true) :
    numCalls (call_openai_with_retry calls N d).1 = N ∧
    sleepsOf (call_openai_with_retry calls N d).1 =
      (if 0 < d then List.replicate (N - 1) d else []) ∧
    ∃ m, calls (N - 1) = some m ∧
      (call_openai_with_retry calls N d).2 = RetryOutcome.raised m ∧
      is_quota_exceeded_error m = true := by
  have h := retryGo_all_quota calls N d N 0 (by omega) (by omega)
    (fun i _ hi => hq i hi)
  simpa [call_openai_with_retry] using h

/-- Witness for C1 at N = 3, delay 0, every call failing with a quota
message. -/
theorem c1_quota_exhaustion_witness :
    numCalls (call_openai_with_retry
      (fun _ => some "Error: quota exceeded for this month".toList) 3 0).1 = 3 ∧
    sleepsOf (call_openai_with_retry
      (fun _ => some "Error: quota exceeded for this month".toList) 3 0).1 =
      (if 0 < 0 then List.replicate (3 - 1) 0 else []) ∧
    ∃ m, (fun _ => some "Error: quota exceeded for this month".toList) (3 - 1)
        = some m ∧
      (call_openai_with_retry
        (fun _ => some "Error: quota exceeded for this month".toList) 3 0).2 =
        RetryOutcome.raised m ∧
      is_quota_exceeded_error m = true :=
  c1_quota_exhaustion 3 0 _ (by omega)
    (fun i _ => ⟨_, rfl, by decide⟩)

theorem bool_ne_false {b : Bool} (h : ¬ b = false) : b = true := by
  cases b <;> simp_all

theorem bool_ne_true {b : Bool} (h : ¬ b = true) : b = false := by
  cases b <;> simp_all

theorem retryGo_timeout_no_sleep (calls : Nat → Option Str) (N d : Nat) :
    ∀ k a, N - a ≤ k →
    (∀ i, a ≤ i → i < N →
      ∃ m, calls i = some m ∧ classifyError m = ErrClass.timeout) →
    sleepsOf (retryGo calls N d a).1 = [] := by
  intro k
  induction k with
  | zero =>
    intro a hk _
    rw [retryGo]
    simp only [show ¬(a < N) from by omega, dite_false]
    rfl
  | succ k ih =>
    intro a hk hq
    rw [retryGo]
    by_cases ha : a < N
    · obtain ⟨m, hm, hcm⟩ := hq a le_rfl ha
      have hnq : is_quota_exceeded_error m = false := by
        by_contra hc
        simp [classifyError, bool_ne_false hc] at hcm
      simp only [ha, dite_true, hm, hnq, Bool.false_eq_true, ite_false]
      have hto : is_timeout_error m = true := by
        by_contra hc
        simp [classifyError, hnq, bool_ne_true hc] at hcm
      simp only [hto, ite_true]
      by_cases hlast : a + 1 < N
      · simp only [hlast, ite_true]
        show sleepsOf (RetryEvent.call :: (retryGo calls N d (a + 1)).1) = []
        simp only [sleepsOf]
        exact ih (a + 1) (by omega) (fun i hi1 hi2 => hq i (by omega) hi2)
      · simp only [hlast, ite_false]
        rfl
    · simp only [ha, dite_false]
      rfl

/-- C5: the retry classification. An error message is classified
quota-exceeded iff its lowercased text contains one of the four fixed
keywords; it is classified timeout iff it is not quota-exceeded and its
lowercased text contains "timeout" or "timed out"; otherwise it is
non-retryable, in which case the retry loop re-raises it immediately after a
single attempt, consuming no further attempts and never sleeping; and
timeout retries never sleep, regardless of the configured delay. -/
theorem c5_retry_classification :
    (∀ msg : Str, classifyError msg = ErrClass.quota ↔
      ∃ kw ∈ ["exceeded your current quota".toList, "quota exceeded".toList,
              "billing details".toList, "plan and billing".toList],
        ∃ p q, lowerStr msg = p ++ kw ++ q) ∧
    (∀ msg : Str, classifyError msg = ErrClass.timeout ↔
      (classifyError msg ≠ ErrClass.quota ∧
        ((∃ p q, lowerStr msg = p ++ "timeout".toList ++ q) ∨
         (∃ p q, lowerStr msg = p ++ "timed out".toList ++ q)))) ∧
    (∀ (msg : Str) (calls : Nat → Option Str) (N d : Nat), 1 ≤ N →
      calls 0 = some msg → classifyError msg = ErrClass.other →
      call_openai_with_retry calls N d =
        ([RetryEvent.call], RetryOutcome.raised msg)) ∧
    (∀ (calls : Nat → Option Str) (N d : Nat),
      (∀ i, i < N → ∃ m, calls i = some m ∧
        classifyError m = ErrClass.timeout) →
      sleepsOf (call_openai_with_retry calls N d).1 = []) := by
  refine ⟨?_, ?_, ?_, ?_⟩
  · intro msg
    constructor
    · intro hc
      have hq : is_quota_exceeded_error msg = true := by
        by_contra hb
        simp [classifyError, bool_ne_true hb] at hc
        split at hc <;> simp_all
      simp only [is_quota_exceeded_error, List.any_eq_true] at hq
      obtain ⟨kw, hkw, hsub⟩ := hq
      exact ⟨kw, hkw, (containsSub_iff kw (lowerStr msg)).mp hsub⟩
    · rintro ⟨kw, hkw, p, q, hpq⟩
      have hq : is_quota_exceeded_error msg = true := by
        simp only [is_quota_exceeded_error, List.any_eq_true]
        exact ⟨kw, hkw, (containsSub_iff kw (lowerStr msg)).mpr ⟨p, q, hpq⟩⟩
      simp [classifyError, hq]
  · intro msg
    constructor
    · intro hc
      have hq : is_quota_exceeded_error msg = false := by
        by_contra hb
        simp [classifyError, bool_ne_false hb] at hc
      have ht : is_timeout_error msg = true := by
        by_contra hb
        simp [classifyError, hq, bool_ne_true hb] at hc
      refine ⟨by simp only [classifyError, hq, Bool.false_eq_true, ite_false]; split <;> simp, ?_⟩
      simp only [is_timeout_error, Bool.or_eq_true] at ht
      rcases ht with h1 | h2
      · exact Or.inl ((containsSub_iff _ _).mp h1)
      · exact Or.inr ((containsSub_iff _ _).mp h2)
    · rintro ⟨hnq, hcont⟩
      have hq : is_quota_exceeded_error msg = false := by
        by_contra hb
        exact hnq (by simp [classifyError, bool_ne_false hb])
      have ht : is_timeout_error msg = true := by
        simp only [is_timeout_error, Bool.or_eq_true]
        rcases hcont with h1 | h2
        · exact Or.inl ((containsSub_iff _ _).mpr h1)
        · exact Or.inr ((containsSub_iff _ _).mpr h2)
      simp [classifyError, hq, ht]
  · intro msg calls N d hN hc0 hother
    have hq : is_quota_exceeded_error msg = false := by
      by_contra hb
      simp [classifyError, bool_ne_false hb] at hother
    have ht : is_timeout_error msg = false := by
      by_contra hb
      simp [classifyError, hq, bool_ne_false hb] at hother
    rw [call_openai_with_retry, retryGo]
    simp [hN, hc0, hq, ht, show 0 < N from hN]
  · intro calls N d hq
    exact retryGo_timeout_no_sleep calls N d N 0 (by omega)
      (fun i _ hi => hq i hi)

/-- Witness for C5: a quota message, a timeout message and a non-retryable
message classified and handled at concrete inputs. -/
theorem c5_retry_classification_witness :
    classifyError "Error: quota exceeded for this month".toList =
      ErrClass.quota ∧
    classifyError "Request timed out after 120s".toList =
      ErrClass.timeout ∧
    call_openai_with_retry (fun _ => some "Invalid API key".toList) 3 5 =
      ([RetryEvent.call],
        RetryOutcome.raised "Invalid API key".toList) ∧
    sleepsOf (call_openai_with_retry
      (fun _ => some "Request timed out after 120s".toList) 3 7).1 = [] := by
  refine ⟨?_, ?_, ?_, ?_⟩
  · exact (c5_retry_classification.1 _).mpr
      ⟨"quota exceeded".toList, by decide,
        "error: ".toList, " for this month".toList, by decide⟩
  · exact (c5_retry_classification.2.1 _).mpr
      ⟨by decide, Or.inr ⟨"request ".toList, " after 120s".toList, by decide⟩⟩
  · exact c5_retry_classification.2.2.1 _ _ 3 5 (by omega) rfl (by decide)
  · exact c5_retry_classification.2.2.2 _ 3 7
      (fun i _ => ⟨_, rfl, by decide⟩)

/- ===== Primary streaming transport (call_api_raw with use_stream=True)
   =====
   The HTTP layer is the environment: `posts i` is the outcome of the i-th
   POST request the strategy would issue (`Except.error` covers a status
   error raised by raise_for_status as well as a connection failure, both
   `requests.exceptions.RequestException`). A successful response body is
   the sequence of SSE lines. JSON decoding of a chunk line is modelled by
   the environment function `decode`; `none` stands for a
   json.JSONDecodeError, which the code catches and skips. A stream chunk
   carries `choices[i].delta.content` (none when the delta has no content
   key). -/

structure StreamChunk where
  choices : List (Option Str)
deriving DecidableEq

structure RawResponse where
  choicesContent : List Str
deriving DecidableEq

def accumLine (decode : Str → Option StreamChunk) (acc : Str) (line : Str) :
    Str :=
  if line.isEmpty then acc
  else if "data: ".toList.isPrefixOf line then
    let ds := line.drop 6
    if ds = "[DONE]".toList then acc
    else
      match decode ds with
      | some chunk =>
        match chunk.choices with
        | some s :: _ => acc ++ s
        | _ => acc
      | none => acc
  else acc

def accumulateStream (decode : Str → Option StreamChunk)
    (lines : List Str) : Str :=
  lines.foldl (accumLine decode) []

/- call_api_raw with use_stream=True: one POST; on HTTP failure the
   exception is re-raised to the caller; on success the SSE lines are
   folded into a single content string and a normalized single-choice
   response is synthesized. The first component counts the POST requests
   issued. -/
def call_api_raw_stream (posts : Nat → Except Str (List Str))
    (decode : Str → Option StreamChunk) : Nat × Except Str RawResponse :=
  match posts 0 with
  | Except.error e => (1, Except.error e)
  | Except.ok lines =>
    (1, Except.ok ⟨[accumulateStream decode lines]⟩)

/-- C3: in the primary streaming transport, exactly one HTTP request is
issued (no retry is attempted inside this strategy), any HTTP-level failure
(status error or connection failure) propagates immediately to the caller,
and a successful request always yields a normalized response — in
particular a malformed JSON chunk is skipped rather than retried, and there
is no JSON parse on the critical path of the streaming branch that could
fail. -/
theorem c3_stream_no_retry (posts : Nat → Except Str (List Str))
    (decode : Str → Option StreamChunk) :
    (call_api_raw_stream posts decode).1 = 1 ∧
    (∀ e, posts 0 = Except.error e →
      (call_api_raw_stream posts decode).2 = Except.error e) ∧
    (∀ lines, posts 0 = Except.ok lines →
      (call_api_raw_stream posts decode).2 =
        Except.ok ⟨[accumulateStream decode lines]⟩) := by
  refine ⟨?_, ?_, ?_⟩
  · unfold call_api_raw_stream
    cases posts 0 <;> rfl
  · intro e he
    unfold call_api_raw_stream
    rw [he]
  · intro lines hl
    unfold call_api_raw_stream
    rw [hl]

/-- Witness for C3: a failing POST propagates its error; a succeeding POST
with one well-formed chunk, one malformed chunk and the [DONE] sentinel
yields the accumulated content. -/
theorem c3_stream_no_retry_witness :
    (call_api_raw_stream (fun _ => Except.error "boom".toList)
      (fun _ => none)).2 = Except.error "boom".toList ∧
    (call_api_raw_stream
      (fun _ => Except.ok ["data: chunk".toList, "data: bad".toList,
        "data: [DONE]".toList])
      (fun ds => if ds = "chunk".toList
        then some ⟨[some "A cat.".toList]⟩ else none)).2 =
      Except.ok ⟨["A cat.".toList]⟩ := by
  constructor
  · exact (c3_stream_no_retry _ _).2.1 _ rfl
  · have h := (c3_stream_no_retry
      (fun _ => Except.ok ["data: chunk".toList, "data: bad".toList,
        "data: [DONE]".toList])
      (fun ds => if ds = "chunk".toList
        then some ⟨[some "A cat.".toList]⟩ else none)).2.2 _ rfl
    have hacc : accumulateStream
        (fun ds => if ds = "chunk".toList
          then some ⟨[some "A cat.".toList]⟩ else none)
        ["data: chunk".toList, "data: bad".toList, "data: [DONE]".toList] =
        "A cat.".toList := by decide
    rw [h, hacc]

/- ===== Vendor image fields on the message object =====
   After a response is obtained, the driver appends image payloads found in
   vendor-specific fields of the message onto the content string. A message
   is modelled as its content plus an association list of extra fields;
   a field value is either a single string or a list of items, where an
   item is a string or an object with string-valued keys (dict keys on the
   raw path, attributes on the fallback path are modelled uniformly). -/

inductive ImgVal where
  | str (s : Str)
  | obj (kvs : List (Str × Str))
deriving DecidableEq

inductive FieldVal where
  | str (s : Str)
  | list (items : List ImgVal)
deriving DecidableEq

def lookupKey (k : Str) : List (Str × Str) → Option Str
  | [] => none
  | (k2, v) :: rest => if k2 = k then some v else lookupKey k rest

def lookupField (k : Str) : List (Str × FieldVal) → Option FieldVal
  | [] => none
  | (k2, v) :: rest => if k2 = k then some v else lookupField k rest

structure VendorMessage where
  content : Str
  fields : List (Str × FieldVal)
deriving DecidableEq

def possible_image_fields : List Str :=
  ["images".toList, "image".toList, "attachments".toList, "media".toList,
   "files".toList, "data".toList]

/- Python truthiness of a field value: non-empty string or non-empty
   list. -/
def fieldTruthy : FieldVal → Bool
  | FieldVal.str s => !s.isEmpty
  | FieldVal.list l => !l.isEmpty

/- A string image payload: passed through when it already carries a data:
   scheme, otherwise wrapped into a png data URI (raw path). -/
def strImageRep (s : Str) : Str :=
  if "data:".toList.isPrefixOf s then '\n' :: s
  else "\ndata:image/png;base64,".toList ++ s

def imgValRep : ImgVal → Str
  | ImgVal.str s => strImageRep s
  | ImgVal.obj kvs =>
    match lookupKey "data".toList kvs with
    | some d => "\ndata:image/png;base64,".toList ++ d
    | none =>
      match lookupKey "url".toList kvs with
      | some u => '\n' :: u
      | none =>
        match lookupKey "base64".toList kvs with
        | some b => "\ndata:image/png;base64,".toList ++ b
        | none => []

def fieldRep : FieldVal → Str
  | FieldVal.str s => strImageRep s
  | FieldVal.list items => (items.map imgValRep).flatten

/- The contribution a single vendor field makes to the content on the raw
   path: its decoded representation when present and truthy, nothing
   otherwise. -/
def fieldContrib (msg : VendorMessage) (fname : Str) : Str :=
  match lookupField fname msg.fields with
  | some v => if fieldTruthy v then fieldRep v else []
  | none => []

/- Raw-response path: iterate over the fixed allow-list of field names,
   appending each present, truthy field's representation. -/
def response_content_raw (msg : VendorMessage) : Str :=
  possible_image_fields.foldl (fun acc f => acc ++ fieldContrib msg f)
    msg.content

/- Fallback (managed client) path: only the `images` attribute is
   inspected. A string item is always wrapped (no data: test); an object
   item contributes only via its `data` attribute; a bare string field is
   iterated character-wise as Python iterates a str. -/
def fallbackImgRep : ImgVal → Str
  | ImgVal.str s => "\ndata:image/png;base64,".toList ++ s
  | ImgVal.obj kvs =>
    match lookupKey "data".toList kvs with
    | some d => "\ndata:image/png;base64,".toList ++ d
    | none => []

def fallbackImagesRep : FieldVal → Str
  | FieldVal.str s =>
    (s.map (fun ch => "\ndata:image/png;base64,".toList ++ [ch])).flatten
  | FieldVal.list items => (items.map fallbackImgRep).flatten

def imagesContrib (msg : VendorMessage) : Str :=
  match lookupField "images".toList msg.fields with
  | some v => if fieldTruthy v then fallbackImagesRep v else []
  | none => []

def response_content_fallback (msg : VendorMessage) : Str :=
  match lookupField "images".toList msg.fields with
  | some v =>
    if fieldTruthy v then msg.content ++ fallbackImagesRep v
    else msg.content
  | none => msg.content

theorem foldl_append_flatten {α : Type} (g : α → Str) (L : List α) :
    ∀ init : Str, L.foldl (fun acc f => acc ++ g f) init =
      init ++ (L.map g).flatten := by
  induction L with
  | nil => intro init; simp
  | cons x xs ih =>
    intro init
    simp only [List.foldl_cons, List.map_cons, List.flatten_cons, ih,
      List.append_assoc]

/-- C4 counterexample: a message whose `attachments` field is present and
non-empty. On the raw path its representation is appended; on the
managed-client fallback path the content is returned unchanged, so it is
false that after a response is obtained by either transport path all six
vendor fields are inspected and appended. -/
theorem c4_counterexample :
    response_content_fallback
      ⟨"hi".toList,
        [("attachments".toList, FieldVal.list [ImgVal.str "QQ==".toList])]⟩ =
      "hi".toList ∧
    response_content_raw
      ⟨"hi".toList,
        [("attachments".toList, FieldVal.list [ImgVal.str "QQ==".toList])]⟩ =
      "hi\ndata:image/png;base64,QQ==".toList := by
  constructor
  · decide
  · decide

/-- C4 (amended): on the raw-response path the engine inspects the six
vendor fields images, image, attachments, media, files, data in that fixed
order and appends, for each field that is present and non-empty, its
decoded representation (data URI or raw URL) onto the content string; on
the managed-client fallback path only the `images` field is inspected and
appended, and the fallback result depends on no other field. -/
theorem c4_vendor_fields (msg : VendorMessage) :
    response_content_raw msg =
      msg.content ++ (possible_image_fields.map (fieldContrib msg)).flatten ∧
    response_content_fallback msg = msg.content ++ imagesContrib msg ∧
    (∀ msg2 : VendorMessage, msg2.content = msg.content →
      lookupField "images".toList msg2.fields =
        lookupField "images".toList msg.fields →
      response_content_fallback msg2 = response_content_fallback msg) := by
  refine ⟨?_, ?_, ?_⟩
  · exact foldl_append_flatten (fieldContrib msg) possible_image_fields
      msg.content
  · unfold response_content_fallback imagesContrib
    cases lookupField "images".toList msg.fields with
    | none => simp
    | some v =>
      by_cases hv : fieldTruthy v
      · simp [hv]
      · simp [hv]
  · intro msg2 hc hf
    unfold response_content_fallback
    rw [hc, hf]

/- ===== Base64 (Python base64.b64encode / b64decode) =====
   Bytes are naturals below 256. Decoding accepts canonical base64 with
   trailing padding and fails (`none`, a raised binascii error) otherwise. -/

def b64Alphabet : Str :=
  "ABCDEFGHIJKLMNOPQRSTUVWXYZabcdefghijklmnopqrstuvwxyz0123456789+/".toList

def b64CharOf (n : Nat) : Char := b64Alphabet.getD n 'A'

def b64encodeBytes : List Nat → Str
  | [] => []
  | [a] => [b64CharOf (a / 4), b64CharOf (a % 4 * 16), '=', '=']
  | [a, b] => [b64CharOf (a / 4), b64CharOf (a % 4 * 16 + b / 16),
      b64CharOf (b % 16 * 4), '=']
  | a :: b :: c :: rest =>
    b64CharOf (a / 4) :: b64CharOf (a % 4 * 16 + b / 16) ::
      b64CharOf (b % 16 * 4 + c / 64) :: b64CharOf (c % 64) ::
      b64encodeBytes rest

def b64Idx (c : Char) : Option Nat := b64Alphabet.findIdx? (· == c)

def b64decodeOpt : Str → Option (List Nat)
  | [] => some []
  | c1 :: c2 :: c3 :: c4 :: rest =>
    match b64Idx c1, b64Idx c2 with
    | some i1, some i2 =>
      if c3 = '=' then
        if c4 = '=' ∧ rest = [] then some [i1 * 4 + i2 / 16] else none
      else
        match b64Idx c3 with
        | some i3 =>
          if c4 = '=' then
            if rest = [] then
              some [i1 * 4 + i2 / 16, i2 % 16 * 16 + i3 / 4]
            else none
          else
            match b64Idx c4 with
            | some i4 =>
              match b64decodeOpt rest with
              | some bs => some ((i1 * 4 + i2 / 16) ::
                  (i2 % 16 * 16 + i3 / 4) :: (i3 % 4 * 64 + i4) :: bs)
              | none => none
            | none => none
        | none => none
    | _, _ => none
  | _ => none

/- The regex character class [A-Za-z0-9+/=]. -/
def isB64Char (c : Char) : Bool := (b64Alphabet ++ ['=']).contains c

theorem b64Idx_charOf : ∀ n, n < 64 → b64Idx (b64CharOf n) = some n := by
  decide

theorem b64CharOf_ne_pad : ∀ n, n < 64 → b64CharOf n ≠ '=' := by
  decide

theorem isB64Char_charOf : ∀ n, n < 64 → isB64Char (b64CharOf n) = true := by
  decide

theorem b64_roundtrip (B : List Nat) (hB : ∀ b ∈ B, b < 256) :
    b64decodeOpt (b64encodeBytes B) = some B := by
  induction B using b64encodeBytes.induct with
  | case1 => rfl
  | case2 a =>
    have ha : a < 256 := hB a (by simp)
    rw [b64encodeBytes, b64decodeOpt,
      b64Idx_charOf (a / 4) (by omega),
      b64Idx_charOf (a % 4 * 16) (by omega)]
    simp only [ite_true, and_self, if_true]
    congr 2
    omega
  | case3 a b =>
    have ha : a < 256 := hB a (by simp)
    have hb : b < 256 := hB b (by simp)
    rw [b64encodeBytes, b64decodeOpt,
      b64Idx_charOf (a / 4) (by omega),
      b64Idx_charOf (a % 4 * 16 + b / 16) (by omega)]
    simp only [b64CharOf_ne_pad (b % 16 * 4) (by omega), ite_false,
      b64Idx_charOf (b % 16 * 4) (by omega), ite_true]
    congr 1
    have e1 : a / 4 * 4 + (a % 4 * 16 + b / 16) / 16 = a := by omega
    have e2 : (a % 4 * 16 + b / 16) % 16 * 16 + b % 16 * 4 / 4 = b := by
      omega
    rw [e1, e2]
  | case4 a b c rest ih =>
    have ha : a < 256 := hB a (by simp)
    have hb : b < 256 := hB b (by simp)
    have hc : c < 256 := hB c (by simp)
    have hrest : ∀ x ∈ rest, x < 256 := fun x hx => hB x (by simp [hx])
    rw [b64encodeBytes, b64decodeOpt,
      b64Idx_charOf (a / 4) (by omega),
      b64Idx_charOf (a % 4 * 16 + b / 16) (by omega)]
    simp only [b64CharOf_ne_pad (b % 16 * 4 + c / 64) (by omega), ite_false,
      b64Idx_charOf (b % 16 * 4 + c / 64) (by omega),
      b64CharOf_ne_pad (c % 64) (by omega),
      b64Idx_charOf (c % 64) (by omega), ih hrest]
    congr 1
    have e1 : a / 4 * 4 + (a % 4 * 16 + b / 16) / 16 = a := by omega
    have e2 : (a % 4 * 16 + b / 16) % 16 * 16 + (b % 16 * 4 + c / 64) / 4
        = b := by omega
    have e3 : (b % 16 * 4 + c / 64) % 4 * 64 + c % 64 = c := by omega
    rw [e1, e2, e3]

theorem b64encode_all_b64 (B : List Nat) (hB : ∀ b ∈ B, b < 256) :
    ∀ ch ∈ b64encodeBytes B, isB64Char ch = true := by
  induction B using b64encodeBytes.induct with
  | case1 => intro ch hch; cases hch
  | case2 a =>
    have ha : a < 256 := hB a (by simp)
    intro ch hch
    simp only [b64encodeBytes, List.mem_cons, List.mem_singleton] at hch
    rcases hch with rfl | rfl | rfl | rfl | h
    · exact isB64Char_charOf _ (by omega)
    · exact isB64Char_charOf _ (by omega)
    · decide
    · decide
    · cases h
  | case3 a b =>
    have ha : a < 256 := hB a (by simp)
    have hb : b < 256 := hB b (by simp)
    intro ch hch
    simp only [b64encodeBytes, List.mem_cons, List.mem_singleton] at hch
    rcases hch with rfl | rfl | rfl | rfl | h
    · exact isB64Char_charOf _ (by omega)
    · exact isB64Char_charOf _ (by omega)
    · exact isB64Char_charOf _ (by omega)
    · decide
    · cases h
  | case4 a b c rest ih =>
    have ha : a < 256 := hB a (by simp)
    have hb : b < 256 := hB b (by simp)
    have hc : c < 256 := hB c (by simp)
    have hrest : ∀ x ∈ rest, x < 256 := fun x hx => hB x (by simp [hx])
    intro ch hch
    simp only [b64encodeBytes, List.mem_cons] at hch
    rcases hch with rfl | rfl | rfl | rfl | h
    · exact isB64Char_charOf _ (by omega)
    · exact isB64Char_charOf _ (by omega)
    · exact isB64Char_charOf _ (by omega)
    · exact isB64Char_charOf _ (by omega)
    · exact ih hrest ch h

theorem b64encode_ne_nil (B : List Nat) (hB : B ≠ []) :
    b64encodeBytes B ≠ [] := by
  match B with
  | [] => exact absurd rfl hB
  | [a] => simp [b64encodeBytes]
  | [a, b] => simp [b64encodeBytes]
  | a :: b :: c :: rest => simp [b64encodeBytes]

/- ===== Regex matching =====
   The base64 image pattern from save_mixed_content:
     data:image/[^;]+;base64,([A-Za-z0-9+/=]+)
   Matching at a position: the literal scheme, a non-empty run of
   non-semicolon characters (greedy [^;]+ followed by ';' is exactly the
   run up to the first semicolon), the literal ";base64," and a non-empty
   maximal run of base64-class characters (the captured group). -/

def dropPrefixQ : Str → Str → Option Str
  | [], l => some l
  | _ :: _, [] => none
  | p :: ps, c :: cs => if c = p then dropPrefixQ ps cs else none

theorem dropPrefixQ_self_append (p r : Str) :
    dropPrefixQ p (p ++ r) = some r := by
  induction p with
  | nil => rfl
  | cons c cs ih => simp [dropPrefixQ, ih]

def matchB64At (l : Str) : Option (Str × Str × Str) :=
  match dropPrefixQ "data:image/".toList l with
  | none => none
  | some r1 =>
    let sub := r1.takeWhile (fun c => c != ';')
    if sub.isEmpty then none
    else
      match dropPrefixQ ";base64,".toList
          (r1.dropWhile (fun c => c != ';')) with
      | none => none
      | some r3 =>
        let payload := r3.takeWhile isB64Char
        if payload.isEmpty then none
        else some ("data:image/".toList ++ sub ++ ";base64,".toList ++
            payload, payload, r3.dropWhile isB64Char)

def findB64Go : Str → Nat → List (Str × Str)
  | [], _ => []
  | c :: rest, skip =>
    if skip > 0 then findB64Go rest (skip - 1)
    else
      match matchB64At (c :: rest) with
      | some r => (r.1, r.2.1) :: findB64Go rest (r.1.length - 1)
      | none => findB64Go rest 0

def findB64 (l : Str) : List (Str × Str) := findB64Go l 0

/- The URL image pattern from save_mixed_content, compiled with
   re.IGNORECASE:
     https?://[^\s<>"]+\.(png|jpg|jpeg|gif)
   Greedy matching of [^\s<>"]+ with backtracking picks the longest
   split point m ≥ 1 inside the maximal run R of allowed characters such
   that R after m starts with a dot followed by one of the extensions
   (alternatives tried in pattern order). -/

def ciPrefixQ : Str → Str → Option Str
  | [], l => some l
  | _ :: _, [] => none
  | p :: ps, c :: cs => if c.toLower = p then ciPrefixQ ps cs else none

/- Python regex \s over ASCII together with the explicitly excluded
   characters of the class [^\s<>"]. -/
def isUrlBodyChar (c : Char) : Bool :=
  !(c = ' ' || c = '\t' || c = '\n' || c = '\r' ||
    c = Char.ofNat 11 || c = Char.ofNat 12 || c = '<' || c = '>' || c = '"')

def extCandidates : List Str :=
  ["png".toList, "jpg".toList, "jpeg".toList, "gif".toList]

def extAtHead : List Str → Str → Option Nat
  | [], _ => none
  | e :: es, l =>
    match ciPrefixQ e l with
    | some _ => some e.length
    | none => extAtHead es l

/- Match "\.(png|jpg|jpeg|gif)" at the head of l; returns the number of
   characters consumed (dot included). -/
def extAt (l : Str) : Option Nat :=
  match l with
  | c :: rest =>
    if c = '.' then
      match extAtHead extCandidates rest with
      | some n => some (n + 1)
      | none => none
    else none
  | [] => none

/- Search the split point m (the length of the [^\s<>"]+ part) from
   largest to smallest, as the backtracking regex engine does; returns
   (m, consumed-extension-length). -/
def searchSplit (R : Str) : Nat → Option (Nat × Nat)
  | 0 => none
  | m + 1 =>
    match extAt (R.drop (m + 1)) with
    | some e => some (m + 1, e)
    | none => searchSplit R m

/- The scheme part https?:// matched case-insensitively at the head of l:
   returns the number of characters it consumed and the remaining input. -/
def matchURLScheme (l : Str) : Option (Nat × Str) :=
  match ciPrefixQ "http".toList l with
  | none => none
  | some r1 =>
    match r1 with
    | [] => none
    | c :: cs =>
      if c.toLower = 's' then
        match ciPrefixQ "://".toList cs with
        | none => none
        | some r2 => some (8, r2)
      else
        match ciPrefixQ "://".toList (c :: cs) with
        | none => none
        | some r2 => some (7, r2)

/- Match the URL pattern at the start of l; returns (matched text, rest).
   The scheme is https? case-insensitively, then ://, then the greedy
   body and the extension. -/
def matchURLAt (l : Str) : Option (Str × Str) :=
  match matchURLScheme l with
  | none => none
  | some (k, r2) =>
    match searchSplit (r2.takeWhile isUrlBodyChar)
        (r2.takeWhile isUrlBodyChar).length with
    | none => none
    | some (m, e) => some (l.take (k + m + e), l.drop (k + m + e))

def findURLGo : Str → Nat → List Str
  | [], _ => []
  | c :: rest, skip =>
    if skip > 0 then findURLGo rest (skip - 1)
    else
      match matchURLAt (c :: rest) with
      | some r => r.1 :: findURLGo rest (r.1.length - 1)
      | none => findURLGo rest 0

def findURL (l : Str) : List Str := findURLGo l 0

/- ===== Python str.replace: replace every non-overlapping occurrence,
   scanning left to right ===== -/

def replaceAllGo (old new : Str) : Str → Nat → Str
  | [], _ => []
  | c :: rest, skip =>
    if skip > 0 then replaceAllGo old new rest (skip - 1)
    else if old ≠ [] ∧ old.isPrefixOf (c :: rest) then
      new ++ replaceAllGo old new rest (old.length - 1)
    else c :: replaceAllGo old new rest 0

def replaceAll (old new : Str) (l : Str) : Str := replaceAllGo old new l 0

theorem replaceAll_nil (old new : Str) : replaceAll old new [] = [] := rfl

/- Emitting nothing while the skip counter burns down a block: skipping
   over t continues the scan right after t. -/
theorem replaceAllGo_skip (old new : Str) :
    ∀ t r : Str, replaceAllGo old new (t ++ r) t.length =
      replaceAllGo old new r 0 := by
  intro t
  induction t with
  | nil => intro r; rfl
  | cons c ts ih =>
    intro r
    simp only [List.cons_append, List.length_cons, replaceAllGo,
      Nat.succ_sub_one]
    rw [if_pos (Nat.succ_pos _)]
    exact ih r

theorem replaceAll_head (old new t : Str) (hold : old ≠ []) :
    replaceAll old new (old ++ t) = new ++ replaceAll old new t := by
  match old with
  | o :: os =>
    show replaceAllGo (o :: os) new (o :: (os ++ t)) 0 = _
    have hpre : (o :: os).isPrefixOf (o :: os ++ t) :=
      List.isPrefixOf_iff_prefix.mpr ⟨t, by simp⟩
    rw [replaceAllGo, if_neg (by omega),
      if_pos ⟨hold, by simp only [List.cons_append] at hpre; exact hpre⟩]
    have hlen : (o :: os : Str).length - 1 = os.length := by simp
    rw [hlen, replaceAllGo_skip]
    rfl

theorem replaceAll_cons_ne (old new : Str) (c : Char) (rest : Str)
    (h : old.isPrefixOf (c :: rest) = false) :
    replaceAll old new (c :: rest) = c :: replaceAll old new rest := by
  show replaceAllGo old new (c :: rest) 0 = _
  rw [replaceAllGo, if_neg (by omega), if_neg]
  · rfl
  · rintro ⟨-, h2⟩
    rw [h] at h2
    cases h2

theorem replaceAll_not_contained (old new : Str) :
    ∀ l, containsSub old l = false → replaceAll old new l = l := by
  intro l
  induction l with
  | nil => intro _; exact replaceAll_nil old new
  | cons c rest ih =>
    intro h
    simp only [containsSub, Bool.or_eq_false_iff] at h
    rw [replaceAll_cons_ne old new c rest h.1, ih h.2]

theorem isPrefixOf_false_of_head_ne (d c : Char) (ds rest : Str)
    (h : d ≠ c) : (d :: ds).isPrefixOf (c :: rest) = false := by
  simp [List.isPrefixOf, h]

/- ===== Mixed-content extraction (save_mixed_content) =====
   File-system and network effects are the environment: `b64io` lists, per
   base64 match in processing order, whether the image file write succeeds;
   `urlio` lists, per URL match, `none` for a failed GET/write and
   `some ct` for a success whose response carried content-type `ct`;
   `contentOk`/`originalOk` tell whether the two final text writes
   succeed. The output records the image files created (in creation
   order), the contents of content.txt and original_content.txt when
   written, and whether an exception escaped to the caller. -/

inductive ImgFile where
  | b64 (name : Str) (bytes : List Nat)
  | url (name : Str) (src : Str)
deriving DecidableEq

def natStr (n : Nat) : Str := (toString n).toList

/- save_base64_image: strip a data:image/ prefix if present (Python
   split(',', 1)[1], an error when no comma follows), then decode;
   any failure is caught inside the helper, which returns None. -/
def stripDataPrefix (s : Str) : Option Str :=
  if "data:image/".toList.isPrefixOf s then
    match s.dropWhile (fun c => c != ',') with
    | [] => none
    | _ :: after => some after
  else some s

def save_base64_image (payload : Str) : Option (List Nat) :=
  match stripDataPrefix payload with
  | none => none
  | some s => b64decodeOpt s

/- download_image_from_url: the output extension is chosen from the
   content-type header, defaulting to png. -/
def chooseExt (ct : Str) : Str :=
  let lc := lowerStr ct
  if containsSub "png".toList lc then "png".toList
  else if containsSub "jpg".toList lc || containsSub "jpeg".toList lc then
    "jpg".toList
  else if containsSub "gif".toList lc then "gif".toList
  else "png".toList

def b64Placeholder (dir fname : Str) : Str :=
  "[保存的图片: ".toList ++ dir ++ "/".toList ++ fname ++ "]".toList

def urlPlaceholder (dir fname : Str) : Str :=
  "[下载的图片: ".toList ++ dir ++ "/".toList ++ fname ++ "]".toList

/- The base64 loop: each match is saved if its payload decodes and the
   write succeeds; on success the whole matched span is replaced (every
   occurrence, Python str.replace) and the shared counter advances; on
   failure the match is skipped, the error logged. -/
def processB64 (dir : Str) : List (Str × Str) → List Bool → Nat → Str →
    List ImgFile × Nat × Str
  | [], _, idx, text => ([], idx, text)
  | (full, payload) :: ms, ios, idx, text =>
    match (if ios.headD true then save_base64_image payload else none) with
    | some bytes =>
      let fname := "image_".toList ++ natStr idx ++ ".png".toList
      let out := processB64 dir ms ios.tail (idx + 1)
        (replaceAll full (b64Placeholder dir fname) text)
      (ImgFile.b64 fname bytes :: out.1, out.2)
    | none => processB64 dir ms ios.tail idx text

/- The URL loop, continuing with the same counter. -/
def processURL (dir : Str) : List Str → List (Option Str) → Nat → Str →
    List ImgFile × Nat × Str
  | [], _, idx, text => ([], idx, text)
  | u :: ms, dls, idx, text =>
    match dls.headD none with
    | some ct =>
      let fname := "image_url_".toList ++ natStr idx ++ ".".toList ++
        chooseExt ct
      let out := processURL dir ms dls.tail (idx + 1)
        (replaceAll u (urlPlaceholder dir fname) text)
      (ImgFile.url fname u :: out.1, out.2)
    | none => processURL dir ms dls.tail idx text

structure ExtractEnv where
  b64io : List Bool
  urlio : List (Option Str)
  contentOk : Bool
  originalOk : Bool
deriving DecidableEq

structure ExtractOutput where
  files : List ImgFile
  contentTxt : Option Str
  originalTxt : Option Str
  raised : Bool
deriving DecidableEq

/- The body of save_mixed_content as it would run without the outer
   try/except: both finditer passes over the original content, the base64
   loop, the URL loop, then the two text writes; a failing text write
   raises (Except.error) with everything written so far recorded and the
   remaining writes skipped. -/
def save_mixed_content_body (content dir : Str) (env : ExtractEnv) :
    Except ExtractOutput ExtractOutput :=
  let r1 := processB64 dir (findB64 content) env.b64io 1 content
  let r2 := processURL dir (findURL content) env.urlio r1.2.1 r1.2.2
  let files := r1.1 ++ r2.1
  if env.contentOk then
    if env.originalOk then
      Except.ok ⟨files, some r2.2.2, some content, false⟩
    else Except.error ⟨files, some r2.2.2, none, true⟩
  else Except.error ⟨files, none, none, true⟩

/- save_mixed_content wraps its whole body in try/except: a raised error
   is printed and swallowed, so the caller never sees an exception. -/
def save_mixed_content (content dir : Str) (env : ExtractEnv) :
    ExtractOutput :=
  match save_mixed_content_body content dir env with
  | Except.ok o => o
  | Except.error o =>
    { files := o.files, contentTxt := o.contentTxt,
      originalTxt := o.originalTxt, raised := false }

/-- C2 counterexample: with the write of content.txt failing, the error is
caught inside save_mixed_content — nothing is raised to the caller (and the
text files are simply missing) — so it is false that an error raised while
writing the two final text files propagates to the caller. -/
theorem c2_counterexample :
    (save_mixed_content "hello world".toList "out".toList
      ⟨[], [], false, true⟩).raised = false ∧
    (save_mixed_content "hello world".toList "out".toList
      ⟨[], [], false, true⟩).contentTxt = none ∧
    (save_mixed_content "hello world".toList "out".toList
      ⟨[], [], false, true⟩).originalTxt = none := by
  refine ⟨by decide, by decide, by decide⟩

/-- C2 (amended): save_mixed_content lets no error propagate to its caller
at all: per-image save/download failures are non-fatal, are logged and do
not abort extraction of subsequent matches (a failed match is skipped
without consuming a counter value), and an error while writing the two
final text files is also caught and logged inside the function rather than
propagated. -/
theorem c2_error_containment :
    (∀ content dir env,
      (save_mixed_content content dir env).raised = false) ∧
    (∀ dir full payload ms ios idx text,
      processB64 dir ((full, payload) :: ms) (false :: ios) idx text =
        processB64 dir ms ios idx text) ∧
    (∀ dir u ms dls idx text,
      processURL dir (u :: ms) (none :: dls) idx text =
        processURL dir ms dls idx text) := by
  refine ⟨?_, ?_, ?_⟩
  · intro content dir env
    unfold save_mixed_content save_mixed_content_body
    by_cases h1 : env.contentOk <;> by_cases h2 : env.originalOk <;>
      simp [h1, h2]
  · intro dir full payload ms ios idx text
    rfl
  · intro dir u ms dls idx text
    rfl

/-- C8: when the content contains no base64-image pattern and no image-URL
pattern (and the final text writes succeed), save_mixed_content writes
content.txt equal to original_content.txt, both equal to the input, and
creates no image files. -/
theorem c8_no_patterns (content dir : Str) (env : ExtractEnv)
    (hb : findB64 content = []) (hu : findURL content = [])
    (hc : env.contentOk = true) (ho : env.originalOk = true) :
    save_mixed_content content dir env =
      ⟨[], some content, some content, false⟩ := by
  unfold save_mixed_content save_mixed_content_body
  rw [hb, hu]
  simp only [processB64, processURL, hc, ho, ite_true, List.nil_append]

/-- Witness for C8: a plain text input produces equal text files and no
image files. -/
theorem c8_no_patterns_witness :
    save_mixed_content "hello world".toList "out".toList
      ⟨[], [], true, true⟩ =
      ⟨[], some "hello world".toList, some "hello world".toList, false⟩ :=
  c8_no_patterns "hello world".toList "out".toList ⟨[], [], true, true⟩
    (by decide) (by decide) rfl rfl

/- ===== Pipeline driver: image preparation =====
   The filesystem is the environment: `reads` lists, per configured image
   path, `none` for a failed open/read and `some bytes` for the file's
   bytes. prepare_image_data turns bytes into a png data URI and re-raises
   read failures; the driver loop catches each failure and continues. -/

def prepare_image_data (read : Option (List Nat)) : Option Str :=
  read.map (fun bytes =>
    "data:image/png;base64,".toList ++ b64encodeBytes bytes)

def image_contents (reads : List (Option (List Nat))) : List Str :=
  reads.filterMap prepare_image_data

inductive DriverEvent where
  | networkCall
deriving DecidableEq

/- After the preparation loop: if no image was processed successfully the
   driver exits with status 1 before issuing any network call; otherwise
   the request is sent. -/
def pipeline_run (reads : List (Option (List Nat))) :
    List DriverEvent × Option Nat :=
  if (image_contents reads).isEmpty then ([], some 1)
  else ([DriverEvent.networkCall], none)

/-- C9: the driver catches each per-image encoding failure and continues
with the remaining images (a failed read contributes nothing and the
successful ones are kept in order); and if zero images encode successfully
the pipeline exits with status 1 before any network call is made. -/
theorem c9_image_prep_failures :
    (∀ (rest : List (Option (List Nat))),
      image_contents (none :: rest) = image_contents rest) ∧
    (∀ (bytes : List Nat) (rest : List (Option (List Nat))),
      image_contents (some bytes :: rest) =
        ("data:image/png;base64,".toList ++ b64encodeBytes bytes) ::
          image_contents rest) ∧
    (∀ reads, (∀ x ∈ reads, x = none) →
      pipeline_run reads = ([], some 1)) ∧
    (∀ reads bytes, some bytes ∈ reads →
      pipeline_run reads = ([DriverEvent.networkCall], none)) := by
  refine ⟨fun rest => rfl, fun bytes rest => rfl, ?_, ?_⟩
  · intro reads hall
    have : image_contents reads = [] := by
      rw [image_contents, List.filterMap_eq_nil_iff]
      intro a ha
      rw [hall a ha]
      rfl
    simp [pipeline_run, this]
  · intro reads bytes hmem
    have : image_contents reads ≠ [] := by
      intro hnil
      rw [image_contents, List.filterMap_eq_nil_iff] at hnil
      have := hnil (some bytes) hmem
      simp [prepare_image_data] at this
    simp only [pipeline_run, List.isEmpty_iff]
    rw [if_neg this]

/-- Witness for C9: two failing reads exit with status 1 and no network
call; one failing and one succeeding read proceed to the network call. -/
theorem c9_image_prep_failures_witness :
    pipeline_run [none, none] = ([], some 1) ∧
    pipeline_run [none, some [1, 2, 3]] =
      ([DriverEvent.networkCall], none) := by
  constructor
  · exact c9_image_prep_failures.2.2.1 [none, none] (by decide)
  · exact c9_image_prep_failures.2.2.2 [none, some [1, 2, 3]] [1, 2, 3]
      (by decide)

/- ===== Span lemmas: how the scanners behave on a well-formed base64
   image span followed by arbitrary non-base64 material ===== -/

def headFails (pred : Char → Bool) : Str → Prop
  | [] => True
  | c :: _ => pred c = false

theorem takeWhile_all_append (pred : Char → Bool) :
    ∀ (p r : Str), (∀ c ∈ p, pred c = true) → headFails pred r →
    (p ++ r).takeWhile pred = p := by
  intro p
  induction p with
  | nil =>
    intro r _ hr
    match r with
    | [] => rfl
    | c :: t =>
      simp only [List.nil_append, List.takeWhile_cons]
      rw [headFails] at hr
      simp [hr]
  | cons c cs ih =>
    intro r hall hr
    have hc : pred c = true := hall c (by simp)
    simp only [List.cons_append, List.takeWhile_cons, hc, ite_true]
    rw [ih r (fun x hx => hall x (by simp [hx])) hr]

theorem dropWhile_all_append (pred : Char → Bool) :
    ∀ (p r : Str), (∀ c ∈ p, pred c = true) → headFails pred r →
    (p ++ r).dropWhile pred = r := by
  intro p
  induction p with
  | nil =>
    intro r _ hr
    match r with
    | [] => rfl
    | c :: t =>
      simp only [List.nil_append, List.dropWhile_cons]
      rw [headFails] at hr
      simp [hr]
  | cons c cs ih =>
    intro r hall hr
    have hc : pred c = true := hall c (by simp)
    simp only [List.cons_append, List.dropWhile_cons, hc, ite_true]
    exact ih r (fun x hx => hall x (by simp [hx])) hr

theorem matchB64At_span (p r : Str) (hp : p ≠ [])
    (hall : ∀ c ∈ p, isB64Char c = true) (hr : headFails isB64Char r) :
    matchB64At ("data:image/png;base64,".toList ++ p ++ r) =
      some ("data:image/png;base64,".toList ++ p, p, r) := by
  have h1 : (p ++ r).takeWhile isB64Char = p :=
    takeWhile_all_append isB64Char p r hall hr
  have h2 : (p ++ r).dropWhile isB64Char = r :=
    dropWhile_all_append isB64Char p r hall hr
  have e0 : "data:image/png;base64,".toList ++ p ++ r =
      "data:image/".toList ++ ("png;base64,".toList ++ (p ++ r)) := by
    simp only [List.append_assoc]
    rfl
  rw [e0]
  show (if ((p ++ r).takeWhile isB64Char).isEmpty then none
    else some ("data:image/".toList ++ "png".toList ++ ";base64,".toList ++
      (p ++ r).takeWhile isB64Char, (p ++ r).takeWhile isB64Char,
      (p ++ r).dropWhile isB64Char)) =
    some ("data:image/png;base64,".toList ++ p, p, r)
  rw [h1, h2, if_neg (fun hcontra => hp (List.isEmpty_iff.mp hcontra))]
  rfl

theorem findB64Go_skip : ∀ t r : Str, findB64Go (t ++ r) t.length =
    findB64Go r 0 := by
  intro t
  induction t with
  | nil => intro r; rfl
  | cons c ts ih =>
    intro r
    simp only [List.cons_append, List.length_cons, findB64Go,
      Nat.succ_sub_one]
    rw [if_pos (Nat.succ_pos _)]
    exact ih r

theorem findB64Go_cons_some (c : Char) (rest full payload rem : Str)
    (hm : matchB64At (c :: rest) = some (full, payload, rem)) :
    findB64Go (c :: rest) 0 =
      (full, payload) :: findB64Go rest (full.length - 1) := by
  rw [findB64Go, if_neg (by omega), hm]

theorem findB64Go_cons_none (c : Char) (rest : Str)
    (hm : matchB64At (c :: rest) = none) :
    findB64Go (c :: rest) 0 = findB64Go rest 0 := by
  rw [findB64Go, if_neg (by omega), hm]

theorem matchB64At_cons_ne (c : Char) (rest : Str) (hc : c ≠ 'd') :
    matchB64At (c :: rest) = none := by
  unfold matchB64At
  have h : dropPrefixQ "data:image/".toList (c :: rest) = none := by
    show dropPrefixQ ('d' :: "ata:image/".toList) (c :: rest) = none
    rw [dropPrefixQ, if_neg hc]
  rw [h]

theorem findB64_span (p r : Str) (hp : p ≠ [])
    (hall : ∀ c ∈ p, isB64Char c = true) (hr : headFails isB64Char r) :
    findB64Go ("data:image/png;base64,".toList ++ p ++ r) 0 =
      ("data:image/png;base64,".toList ++ p, p) :: findB64Go r 0 := by
  have hm : matchB64At ('d' ::
      ("ata:image/png;base64,".toList ++ p ++ r)) =
      some ("data:image/png;base64,".toList ++ p, p, r) :=
    matchB64At_span p r hp hall hr
  have hstep := findB64Go_cons_some 'd'
    ("ata:image/png;base64,".toList ++ p ++ r)
    ("data:image/png;base64,".toList ++ p) p r hm
  have hgoal : findB64Go ("data:image/png;base64,".toList ++ p ++ r) 0 =
      findB64Go ('d' :: ("ata:image/png;base64,".toList ++ p ++ r)) 0 := rfl
  rw [hgoal, hstep]
  congr 1
  have hlen : ("data:image/png;base64,".toList ++ p).length - 1 =
      ("ata:image/png;base64,".toList ++ p).length := by
    simp only [List.length_append]
    have : ("data:image/png;base64,".toList : Str).length = 22 := by decide
    have h2 : ("ata:image/png;base64,".toList : Str).length = 21 := by decide
    omega
  rw [hlen]
  have : "ata:image/png;base64,".toList ++ p ++ r =
      ("ata:image/png;base64,".toList ++ p) ++ r := by
    simp [List.append_assoc]
  rw [this, findB64Go_skip]

/- ===== No URL match inside a base64 span =====
   A base64 image span contains no colon after its scheme, so the URL
   pattern cannot match at any position of (a suffix of) the span: the
   mandatory "://" then fails. -/

theorem isB64Char_mem (c : Char) (h : isB64Char c = true) :
    c ∈ b64Alphabet ++ ['='] := by
  simpa [isB64Char] using h

theorem b64_toLower_ne_colon (c : Char) (h : isB64Char c = true) :
    c.toLower ≠ ':' := by
  have hm := isB64Char_mem c h
  have key : ∀ x ∈ b64Alphabet ++ ['='], x.toLower ≠ ':' := by decide
  exact key c hm

theorem ciPrefixQ_suffix_mem (pat : Str) :
    ∀ l r, ciPrefixQ pat l = some r → ∀ c ∈ r, c ∈ l := by
  induction pat with
  | nil =>
    intro l r h c hc
    simp only [ciPrefixQ, Option.some.injEq] at h
    rwa [h]
  | cons x xs ih =>
    intro l r h c hc
    match l with
    | [] => exact absurd h (by simp [ciPrefixQ])
    | y :: ys =>
      simp only [ciPrefixQ] at h
      by_cases hy : y.toLower = x
      · rw [if_pos hy] at h
        exact List.mem_cons_of_mem y (ih ys r h c hc)
      · rw [if_neg hy] at h
        cases h

theorem ciPrefixQ_b64_space (pat : Str) (hpat : ∀ x ∈ pat, x ≠ ' ') :
    ∀ (q w r : Str), (∀ c ∈ q, isB64Char c = true) →
    ciPrefixQ pat (q ++ ' ' :: w) = some r →
    ∃ q2, (∀ c ∈ q2, isB64Char c = true) ∧ r = q2 ++ ' ' :: w := by
  induction pat with
  | nil =>
    intro q w r hq h
    simp only [ciPrefixQ, Option.some.injEq] at h
    exact ⟨q, hq, h.symm⟩
  | cons x xs ih =>
    intro q w r hq h
    match q with
    | [] =>
      exfalso
      have hx : x ≠ ' ' := hpat x (by simp)
      rw [show (([] : Str) ++ ' ' :: w) = ' ' :: w from rfl, ciPrefixQ] at h
      rw [if_neg (fun hcon : (' ').toLower = x => hx (by
        rw [← hcon]; decide))] at h
      cases h
    | c :: q2 =>
      rw [show ((c :: q2) ++ ' ' :: w) = c :: (q2 ++ ' ' :: w) from rfl,
        ciPrefixQ] at h
      by_cases hcx : c.toLower = x
      · rw [if_pos hcx] at h
        exact ih (fun y hy => hpat y (by simp [hy])) q2 w r
          (fun y hy => hq y (by simp [hy])) h
      · rw [if_neg hcx] at h
        cases h

theorem matchURLScheme_b64_space (q w : Str)
    (hq : ∀ c ∈ q, isB64Char c = true) :
    matchURLScheme (q ++ ' ' :: w) = none := by
  unfold matchURLScheme
  cases h1 : ciPrefixQ "http".toList (q ++ ' ' :: w) with
  | none => rfl
  | some r1 =>
    obtain ⟨q2, hq2, rfl⟩ :=
      ciPrefixQ_b64_space "http".toList (by decide) q w r1 hq h1
    match q2, hq2 with
    | [], _ => rfl
    | c :: q3, hq2 =>
      have hc : isB64Char c = true := hq2 c (by simp)
      show (if c.toLower = 's' then
          match ciPrefixQ "://".toList (q3 ++ ' ' :: w) with
          | none => none
          | some r2 => some (8, r2)
        else
          match ciPrefixQ "://".toList (c :: (q3 ++ ' ' :: w)) with
          | none => none
          | some r2 => some (7, r2)) = none
      by_cases hs : c.toLower = 's'
      · rw [if_pos hs]
        have hz : ciPrefixQ "://".toList (q3 ++ ' ' :: w) = none := by
          match q3, hq2 with
          | [], _ => rfl
          | d :: ds, hq2 =>
            have hd : isB64Char d = true := hq2 d (by simp)
            show ciPrefixQ (':' :: "//".toList) (d :: (ds ++ ' ' :: w)) = none
            rw [ciPrefixQ, if_neg (b64_toLower_ne_colon d hd)]
        rw [hz]
      · rw [if_neg hs]
        have hz : ciPrefixQ "://".toList (c :: (q3 ++ ' ' :: w)) = none := by
          show ciPrefixQ (':' :: "//".toList) (c :: (q3 ++ ' ' :: w)) = none
          rw [ciPrefixQ, if_neg (b64_toLower_ne_colon c hc)]
        rw [hz]

theorem matchURLScheme_all_b64 (l : Str)
    (hall : ∀ c ∈ l, isB64Char c = true) :
    matchURLScheme l = none := by
  unfold matchURLScheme
  cases h1 : ciPrefixQ "http".toList l with
  | none => rfl
  | some r1 =>
    have hr1 : ∀ c ∈ r1, isB64Char c = true := fun c hc =>
      hall c (ciPrefixQ_suffix_mem "http".toList l r1 h1 c hc)
    match r1, hr1 with
    | [], _ => rfl
    | c :: cs, hr1 =>
      have hc : isB64Char c = true := hr1 c (by simp)
      show (if c.toLower = 's' then
          match ciPrefixQ "://".toList cs with
          | none => none
          | some r2 => some (8, r2)
        else
          match ciPrefixQ "://".toList (c :: cs) with
          | none => none
          | some r2 => some (7, r2)) = none
      by_cases hs : c.toLower = 's'
      · rw [if_pos hs]
        have hz : ciPrefixQ "://".toList cs = none := by
          match cs, hr1 with
          | [], _ => rfl
          | d :: ds, hr1 =>
            have hd : isB64Char d = true := hr1 d (by simp)
            show ciPrefixQ (':' :: "//".toList) (d :: ds) = none
            rw [ciPrefixQ, if_neg (b64_toLower_ne_colon d hd)]
        rw [hz]
      · rw [if_neg hs]
        have hz : ciPrefixQ "://".toList (c :: cs) = none := by
          show ciPrefixQ (':' :: "//".toList) (c :: cs) = none
          rw [ciPrefixQ, if_neg (b64_toLower_ne_colon c hc)]
        rw [hz]

theorem matchURLScheme_cons_ne (c : Char) (rest : Str)
    (hc : c.toLower ≠ 'h') : matchURLScheme (c :: rest) = none := by
  unfold matchURLScheme
  have h : ciPrefixQ "http".toList (c :: rest) = none := by
    show ciPrefixQ ('h' :: "ttp".toList) (c :: rest) = none
    rw [ciPrefixQ, if_neg hc]
  rw [h]

theorem matchURLAt_of_scheme_none (l : Str)
    (h : matchURLScheme l = none) : matchURLAt l = none := by
  unfold matchURLAt
  rw [h]

theorem findURLGo_cons_none (c : Char) (rest : Str)
    (hm : matchURLAt (c :: rest) = none) :
    findURLGo (c :: rest) 0 = findURLGo rest 0 := by
  rw [findURLGo, if_neg (by omega), hm]

theorem findURLGo_eq_nil :
    ∀ l : Str, (∀ s : Str, s <:+ l → matchURLAt s = none) →
    findURLGo l 0 = [] := by
  intro l
  induction l with
  | nil => intro _; rfl
  | cons c rest ih =>
    intro h
    rw [findURLGo_cons_none c rest (h (c :: rest) (List.suffix_refl _))]
    exact ih (fun s hs => h s (hs.trans (List.suffix_cons c rest)))

theorem suffix_append_cases {s t r : Str} (h : s <:+ t ++ r) :
    s <:+ r ∨ ∃ t2, t2 <:+ t ∧ s = t2 ++ r := by
  induction t with
  | nil => exact Or.inl (by simpa using h)
  | cons c ts ih =>
    rw [List.cons_append, List.suffix_cons_iff] at h
    rcases h with rfl | h2
    · exact Or.inr ⟨c :: ts, List.suffix_refl _, rfl⟩
    · rcases ih h2 with h3 | ⟨t2, ht2, rfl⟩
      · exact Or.inl h3
      · exact Or.inr ⟨t2, ht2.trans (List.suffix_cons c ts), rfl⟩

/- No URL match at any suffix of (concrete h-free prefix) ++ (base64
   payload). -/
theorem matchURLAt_suffix_Ap_none (A p : Str)
    (hA : ∀ c ∈ A, c.toLower ≠ 'h')
    (hp : ∀ c ∈ p, isB64Char c = true) :
    ∀ s : Str, s <:+ A ++ p → matchURLAt s = none := by
  intro s hs
  rcases suffix_append_cases hs with hsp | ⟨t2, ht2, rfl⟩
  · exact matchURLAt_of_scheme_none s
      (matchURLScheme_all_b64 s (fun c hc => hp c (hsp.subset hc)))
  · match t2, ht2 with
    | [], _ =>
      exact matchURLAt_of_scheme_none _ (matchURLScheme_all_b64 _
        (fun c hc => hp c (by simpa using hc)))
    | c :: t3, ht2 =>
      have hc : c ∈ A := ht2.subset (by simp)
      show matchURLAt (c :: (t3 ++ p)) = none
      exact matchURLAt_of_scheme_none _ (matchURLScheme_cons_ne c _ (hA c hc))

theorem findURL_Ap_nil (A p : Str)
    (hA : ∀ c ∈ A, c.toLower ≠ 'h')
    (hp : ∀ c ∈ p, isB64Char c = true) : findURL (A ++ p) = [] :=
  findURLGo_eq_nil (A ++ p) (matchURLAt_suffix_Ap_none A p hA hp)

/- No URL match at any suffix of span ++ ' ' :: span where span is a
   base64 image span with an h-free concrete scheme part. -/
theorem findURL_two_spans_nil (A p : Str)
    (hA : ∀ c ∈ A, c.toLower ≠ 'h')
    (hp : ∀ c ∈ p, isB64Char c = true) :
    findURL (A ++ p ++ (' ' :: (A ++ p))) = [] := by
  apply findURLGo_eq_nil
  intro s hs
  rcases suffix_append_cases hs with h1 | ⟨t2, ht2, rfl⟩
  · rcases List.suffix_cons_iff.mp h1 with rfl | h2
    · exact matchURLAt_of_scheme_none _ (matchURLScheme_cons_ne ' ' _
        (by decide))
    · exact matchURLAt_suffix_Ap_none A p hA hp s h2
  · rcases suffix_append_cases ht2 with h3 | ⟨a2, ha2, rfl⟩
    · -- t2 is a suffix of the payload: all base64, then a space
      exact matchURLAt_of_scheme_none _ (matchURLScheme_b64_space t2 (A ++ p)
        (fun c hc => hp c (h3.subset hc)))
    · match a2, ha2 with
      | [], _ =>
        exact matchURLAt_of_scheme_none _ (matchURLScheme_b64_space p (A ++ p)
          (fun c hc => hp c (by simpa using hc)))
      | c :: a3, ha2 =>
        have hc : c ∈ A := ha2.subset (by simp)
        show matchURLAt (c :: (a3 ++ p ++ (' ' :: (A ++ p)))) = none
        exact matchURLAt_of_scheme_none _
          (matchURLScheme_cons_ne c _ (hA c hc))

/- ===== Numbering of saved files ===== -/

def imgFileName : ImgFile → Str
  | ImgFile.b64 n _ => n
  | ImgFile.url n _ => n

def isB64File : ImgFile → Bool
  | ImgFile.b64 _ _ => true
  | ImgFile.url _ _ => false

theorem processB64_cons_success (dir full payload : Str) (bytes : List Nat)
    (ms : List (Str × Str)) (ios : List Bool) (idx : Nat) (text : Str)
    (hio : ios.headD true = true)
    (hsave : save_base64_image payload = some bytes) :
    processB64 dir ((full, payload) :: ms) ios idx text =
      (ImgFile.b64 ("image_".toList ++ natStr idx ++ ".png".toList) bytes ::
        (processB64 dir ms ios.tail (idx + 1)
          (replaceAll full (b64Placeholder dir
            ("image_".toList ++ natStr idx ++ ".png".toList)) text)).1,
       (processB64 dir ms ios.tail (idx + 1)
          (replaceAll full (b64Placeholder dir
            ("image_".toList ++ natStr idx ++ ".png".toList)) text)).2) := by
  rw [processB64, hio, hsave]
  rfl

theorem processB64_cons_fail (dir full payload : Str)
    (ms : List (Str × Str)) (ios : List Bool) (idx : Nat) (text : Str)
    (hfail : (if ios.headD true then save_base64_image payload else none) =
      none) :
    processB64 dir ((full, payload) :: ms) ios idx text =
      processB64 dir ms ios.tail idx text := by
  rw [processB64, hfail]

theorem processURL_cons_success (dir u : Str) (ct : Str) (ms : List Str)
    (dls : List (Option Str)) (idx : Nat) (text : Str)
    (hio : dls.headD none = some ct) :
    processURL dir (u :: ms) dls idx text =
      (ImgFile.url ("image_url_".toList ++ natStr idx ++ ".".toList ++
          chooseExt ct) u ::
        (processURL dir ms dls.tail (idx + 1)
          (replaceAll u (urlPlaceholder dir
            ("image_url_".toList ++ natStr idx ++ ".".toList ++
              chooseExt ct)) text)).1,
       (processURL dir ms dls.tail (idx + 1)
          (replaceAll u (urlPlaceholder dir
            ("image_url_".toList ++ natStr idx ++ ".".toList ++
              chooseExt ct)) text)).2) := by
  rw [processURL, hio]

theorem processURL_cons_fail (dir u : Str) (ms : List Str)
    (dls : List (Option Str)) (idx : Nat) (text : Str)
    (hio : dls.headD none = none) :
    processURL dir (u :: ms) dls idx text =
      processURL dir ms dls.tail idx text := by
  rw [processURL, hio]

/- The base64 loop numbers the files it actually creates consecutively,
   regardless of which matches fail. -/
theorem processB64_names (dir : Str) :
    ∀ (ms : List (Str × Str)) (ios : List Bool) (idx : Nat) (text : Str),
    ∃ k, (processB64 dir ms ios idx text).2.1 = idx + k ∧
      (processB64 dir ms ios idx text).1.map imgFileName =
        (List.range k).map
          (fun i => "image_".toList ++ natStr (idx + i) ++ ".png".toList) := by
  intro ms
  induction ms with
  | nil =>
    intro ios idx text
    exact ⟨0, by simp [processB64], by simp [processB64]⟩
  | cons m ms ih =>
    intro ios idx text
    obtain ⟨full, payload⟩ := m
    cases hsv : (if ios.headD true then save_base64_image payload else none)
      with
    | none =>
      obtain ⟨k, hk1, hk2⟩ := ih ios.tail idx text
      rw [processB64_cons_fail dir full payload ms ios idx text hsv]
      exact ⟨k, hk1, hk2⟩
    | some bytes =>
      have hio : ios.headD true = true := by
        by_contra hb
        have : ios.headD true = false := bool_ne_true hb
        rw [this] at hsv
        simp at hsv
      have hsave : save_base64_image payload = some bytes := by
        rw [hio] at hsv
        simpa using hsv
      rw [processB64_cons_success dir full payload bytes ms ios idx text hio
        hsave]
      obtain ⟨k, hk1, hk2⟩ := ih ios.tail (idx + 1)
        (replaceAll full (b64Placeholder dir
          ("image_".toList ++ natStr idx ++ ".png".toList)) text)
      refine ⟨k + 1, ?_, ?_⟩
      · show (processB64 dir ms ios.tail (idx + 1)
            (replaceAll full (b64Placeholder dir
              ("image_".toList ++ natStr idx ++ ".png".toList)) text)).2.1 =
          idx + (k + 1)
        rw [hk1]
        omega
      · show List.map imgFileName
            (ImgFile.b64 ("image_".toList ++ natStr idx ++ ".png".toList)
              bytes ::
              (processB64 dir ms ios.tail (idx + 1)
                (replaceAll full (b64Placeholder dir
                  ("image_".toList ++ natStr idx ++ ".png".toList)) text)).1) =
          (List.range (k + 1)).map
            (fun i => "image_".toList ++ natStr (idx + i) ++ ".png".toList)
        simp only [List.map_cons, hk2, List.range_succ_eq_map, List.map_map]
        congr 1
        apply List.map_congr_left
        intro i _
        simp only [Function.comp_apply]
        have he : idx + 1 + i = idx + Nat.succ i := by omega
        rw [he]

/- The URL loop continues the same counter, one name per successful
   download, with the extension chosen from the content-type. -/
theorem processURL_names (dir : Str) :
    ∀ (ms : List Str) (dls : List (Option Str)) (idx : Nat) (text : Str),
    ∃ exts : List Str,
      (processURL dir ms dls idx text).2.1 = idx + exts.length ∧
      (processURL dir ms dls idx text).1.map imgFileName =
        (exts.enumFrom idx).map
          (fun pr => "image_url_".toList ++ natStr pr.1 ++ ".".toList ++
            pr.2) := by
  intro ms
  induction ms with
  | nil =>
    intro dls idx text
    exact ⟨[], by simp [processURL], by simp [processURL]⟩
  | cons u ms ih =>
    intro dls idx text
    cases hdl : dls.headD none with
    | none =>
      obtain ⟨exts, h1, h2⟩ := ih dls.tail idx text
      rw [processURL_cons_fail dir u ms dls idx text hdl]
      exact ⟨exts, h1, h2⟩
    | some ct =>
      rw [processURL_cons_success dir u ct ms dls idx text hdl]
      obtain ⟨exts, h1, h2⟩ := ih dls.tail (idx + 1)
        (replaceAll u (urlPlaceholder dir
          ("image_url_".toList ++ natStr idx ++ ".".toList ++
            chooseExt ct)) text)
      refine ⟨chooseExt ct :: exts, ?_, ?_⟩
      · show (processURL dir ms dls.tail (idx + 1)
            (replaceAll u (urlPlaceholder dir
              ("image_url_".toList ++ natStr idx ++ ".".toList ++
                chooseExt ct)) text)).2.1 =
          idx + (chooseExt ct :: exts).length
        rw [h1]
        simp only [List.length_cons]
        omega
      · show List.map imgFileName
            (ImgFile.url ("image_url_".toList ++ natStr idx ++ ".".toList ++
              chooseExt ct) u ::
              (processURL dir ms dls.tail (idx + 1)
                (replaceAll u (urlPlaceholder dir
                  ("image_url_".toList ++ natStr idx ++ ".".toList ++
                    chooseExt ct)) text)).1) =
          ((chooseExt ct :: exts).enumFrom idx).map
            (fun pr => "image_url_".toList ++ natStr pr.1 ++ ".".toList ++
              pr.2)
        simp only [List.map_cons, h2, List.enumFrom]
        rfl

theorem save_mixed_content_files (content dir : Str) (env : ExtractEnv) :
    (save_mixed_content content dir env).files =
      (processB64 dir (findB64 content) env.b64io 1 content).1 ++
      (processURL dir (findURL content) env.urlio
        (processB64 dir (findB64 content) env.b64io 1 content).2.1
        (processB64 dir (findB64 content) env.b64io 1 content).2.2).1 := by
  unfold save_mixed_content save_mixed_content_body
  by_cases h1 : env.contentOk <;> by_cases h2 : env.originalOk <;>
    simp [h1, h2]

/-- C7: extraction numbering uses a single shared counter starting at 1:
all base64 matches are processed first, then all URL matches; the counter
advances only on a successful save; files are named image_<n>.png for
base64 matches and image_url_<n>.<ext> for URL matches, the two groups
numbered consecutively with the base64 files first. Moreover, on a string
with two base64 spans and one URL span (the URL download stubbed to
succeed with content-type image/png), exactly three files numbered 1-3 are
produced, the two base64 files first, and content.txt retains no data: and
no matched-URL substring. -/
theorem c7_shared_counter :
    (∀ content dir env, ∃ (k : Nat) (exts : List Str),
      (save_mixed_content content dir env).files.map imgFileName =
        (List.range k).map
          (fun i => "image_".toList ++ natStr (1 + i) ++ ".png".toList) ++
        (exts.enumFrom (1 + k)).map
          (fun pr => "image_url_".toList ++ natStr pr.1 ++ ".".toList ++
            pr.2)) ∧
    (save_mixed_content
        "A data:image/png;base64,QUJD B data:image/jpeg;base64,REVG C http://a.com/x.png D".toList
        "out".toList ⟨[], [some "image/png".toList], true, true⟩).files =
      [ImgFile.b64 "image_1.png".toList [65, 66, 67],
       ImgFile.b64 "image_2.png".toList [68, 69, 70],
       ImgFile.url "image_url_3.png".toList "http://a.com/x.png".toList] ∧
    (save_mixed_content
        "A data:image/png;base64,QUJD B data:image/jpeg;base64,REVG C http://a.com/x.png D".toList
        "out".toList ⟨[], [some "image/png".toList], true, true⟩).contentTxt =
      some "A [保存的图片: out/image_1.png] B [保存的图片: out/image_2.png] C [下载的图片: out/image_url_3.png] D".toList ∧
    containsSub "data:".toList
      "A [保存的图片: out/image_1.png] B [保存的图片: out/image_2.png] C [下载的图片: out/image_url_3.png] D".toList = false ∧
    containsSub "http://a.com/x.png".toList
      "A [保存的图片: out/image_1.png] B [保存的图片: out/image_2.png] C [下载的图片: out/image_url_3.png] D".toList = false := by
  refine ⟨?_, by decide, by decide, by decide, by decide⟩
  intro content dir env
  obtain ⟨k, hk1, hk2⟩ :=
    processB64_names dir (findB64 content) env.b64io 1 content
  obtain ⟨exts, hu1, hu2⟩ := processURL_names dir (findURL content)
    env.urlio
    (processB64 dir (findB64 content) env.b64io 1 content).2.1
    (processB64 dir (findB64 content) env.b64io 1 content).2.2
  refine ⟨k, exts, ?_⟩
  rw [hk1] at hu2
  rw [save_mixed_content_files, List.map_append, hk2, hk1, hu2]

/- ===== Round-trip and duplicate-span properties ===== -/

theorem not_dataPrefix_of_b64 (p : Str)
    (hp : ∀ c ∈ p, isB64Char c = true) :
    ("data:image/".toList.isPrefixOf p) = false := by
  by_contra h
  have hpre : "data:image/".toList <+: p :=
    List.isPrefixOf_iff_prefix.mp (bool_ne_false h)
  have hcolon : ':' ∈ p := hpre.subset (by decide)
  have := hp ':' hcolon
  exact absurd this (by decide)

theorem containsSub_false_of_head_notin (d : Char) (ds l : Str)
    (h : d ∉ l) : containsSub (d :: ds) l = false := by
  induction l with
  | nil => rfl
  | cons c rest ih =>
    simp only [containsSub, Bool.or_eq_false_iff]
    exact ⟨isPrefixOf_false_of_head_ne d c ds rest
        (fun he => h (he ▸ List.mem_cons_self c rest)),
      ih (fun hm => h (List.mem_cons_of_mem c hm))⟩

theorem save_mixed_content_ok (content dir : Str) (env : ExtractEnv)
    (hc : env.contentOk = true) (ho : env.originalOk = true) :
    save_mixed_content content dir env =
      ⟨(processB64 dir (findB64 content) env.b64io 1 content).1 ++
        (processURL dir (findURL content) env.urlio
          (processB64 dir (findB64 content) env.b64io 1 content).2.1
          (processB64 dir (findB64 content) env.b64io 1 content).2.2).1,
        some (processURL dir (findURL content) env.urlio
          (processB64 dir (findB64 content) env.b64io 1 content).2.1
          (processB64 dir (findB64 content) env.b64io 1 content).2.2).2.2,
        some content, false⟩ := by
  unfold save_mixed_content save_mixed_content_body
  simp [hc, ho]

theorem save_b64_of_encode (B : List Nat) (hB : ∀ b ∈ B, b < 256) :
    save_base64_image (b64encodeBytes B) = some B := by
  have hall := b64encode_all_b64 B hB
  have hstrip : stripDataPrefix (b64encodeBytes B) =
      some (b64encodeBytes B) := by
    unfold stripDataPrefix
    rw [not_dataPrefix_of_b64 _ hall]
    rfl
  unfold save_base64_image
  rw [hstrip]
  exact b64_roundtrip B hB

/-- C6 counterexample: with B the empty byte sequence, base64(B) is the
empty payload, the regex requires a non-empty payload, so the embedded
span "data:image/png;base64," yields no match and extraction produces no
saved image file at all — refuting the claim at B = []. -/
theorem c6_counterexample :
    b64encodeBytes [] = [] ∧
    (save_mixed_content
      ("data:image/png;base64,".toList ++ b64encodeBytes [])
      "out".toList ⟨[], [], true, true⟩).files = [] := by
  constructor
  · rfl
  · decide

/-- C6 (amended): for every non-empty byte sequence B, embedding base64(B)
in a response string as a data:image/png;base64,<payload> span and running
extraction produces a saved image file (image_1.png) whose bytes equal B
exactly. -/
theorem c6_roundtrip (B : List Nat) (hB : ∀ b ∈ B, b < 256)
    (hne : B ≠ []) (dir : Str) :
    (save_mixed_content
      ("data:image/png;base64,".toList ++ b64encodeBytes B) dir
      ⟨[], [], true, true⟩).files =
      [ImgFile.b64 "image_1.png".toList B] := by
  have hall := b64encode_all_b64 B hB
  have hpne := b64encode_ne_nil B hne
  have hfb : findB64 ("data:image/png;base64,".toList ++ b64encodeBytes B) =
      [("data:image/png;base64,".toList ++ b64encodeBytes B,
        b64encodeBytes B)] := by
    have h := findB64_span (b64encodeBytes B) [] hpne hall trivial
    rw [List.append_nil] at h
    unfold findB64
    rw [h]
    rfl
  have hfu : findURL ("data:image/png;base64,".toList ++ b64encodeBytes B) =
      [] := findURL_Ap_nil _ _ (by decide) hall
  rw [save_mixed_content_files, hfb, hfu]
  rw [processB64_cons_success dir _ _ B [] [] 1 _ rfl
    (save_b64_of_encode B hB)]
  rfl

/-- Witness for C6 (amended) at B = the bytes of "ABC". -/
theorem c6_roundtrip_witness :
    (save_mixed_content
      ("data:image/png;base64,".toList ++ b64encodeBytes [65, 66, 67])
      "out".toList ⟨[], [], true, true⟩).files =
      [ImgFile.b64 "image_1.png".toList [65, 66, 67]] :=
  c6_roundtrip [65, 66, 67] (by decide) (by decide) "out".toList

theorem processB64_two_dup (dir span p : Str) (B : List Nat) (T1 T2 : Str)
    (hsave : save_base64_image p = some B)
    (content : Str)
    (h1 : replaceAll span (b64Placeholder dir
      ("image_".toList ++ natStr 1 ++ ".png".toList)) content = T1)
    (h2 : replaceAll span (b64Placeholder dir
      ("image_".toList ++ natStr (1 + 1) ++ ".png".toList)) T1 = T2) :
    processB64 dir [(span, p), (span, p)] [] 1 content =
      ([ImgFile.b64 ("image_".toList ++ natStr 1 ++ ".png".toList) B,
        ImgFile.b64 ("image_".toList ++ natStr (1 + 1) ++ ".png".toList) B],
       1 + 1 + 1, T2) := by
  rw [processB64_cons_success dir span p B [(span, p)] [] 1 content rfl
    hsave]
  rw [h1]
  rw [processB64_cons_success dir span p B []
    (List.tail ([] : List Bool)) (1 + 1) T1 rfl hsave]
  rw [h2]
  rfl

/-- C10: when an identical base64 image span occurs twice in the content
string, each regex match is saved as its own sequentially numbered file,
but since replacement is whole-string substitution, the first successful
save already replaces every occurrence of the span with its placeholder,
so the placeholder of the second file (image_2) never appears in the
residual text; likewise for a duplicated image URL. -/
theorem c10_duplicate_spans (B : List Nat) (hB : ∀ b ∈ B, b < 256)
    (hne : B ≠ []) :
    ((save_mixed_content
      ("data:image/png;base64,".toList ++ b64encodeBytes B ++
        (' ' :: ("data:image/png;base64,".toList ++ b64encodeBytes B)))
      "out".toList ⟨[], [], true, true⟩).files =
      [ImgFile.b64 "image_1.png".toList B,
       ImgFile.b64 "image_2.png".toList B]) ∧
    ((save_mixed_content
      ("data:image/png;base64,".toList ++ b64encodeBytes B ++
        (' ' :: ("data:image/png;base64,".toList ++ b64encodeBytes B)))
      "out".toList ⟨[], [], true, true⟩).contentTxt =
      some "[保存的图片: out/image_1.png] [保存的图片: out/image_1.png]".toList) ∧
    containsSub "image_2".toList
      "[保存的图片: out/image_1.png] [保存的图片: out/image_1.png]".toList
      = false ∧
    ((save_mixed_content "http://a.com/x.png http://a.com/x.png".toList
      "out".toList
      ⟨[], [some "image/png".toList, some "image/png".toList], true,
        true⟩).files =
      [ImgFile.url "image_url_1.png".toList "http://a.com/x.png".toList,
       ImgFile.url "image_url_2.png".toList "http://a.com/x.png".toList]) ∧
    ((save_mixed_content "http://a.com/x.png http://a.com/x.png".toList
      "out".toList
      ⟨[], [some "image/png".toList, some "image/png".toList], true,
        true⟩).contentTxt =
      some "[下载的图片: out/image_url_1.png] [下载的图片: out/image_url_1.png]".toList) := by
  have hall := b64encode_all_b64 B hB
  have hpne := b64encode_ne_nil B hne
  have hspanne : "data:image/png;base64,".toList ++ b64encodeBytes B ≠
      ([] : Str) := by
    intro hcontra
    rcases List.append_eq_nil.mp hcontra with ⟨h1, -⟩
    cases h1
  have hfb : findB64 ("data:image/png;base64,".toList ++ b64encodeBytes B ++
      (' ' :: ("data:image/png;base64,".toList ++ b64encodeBytes B))) =
      [("data:image/png;base64,".toList ++ b64encodeBytes B,
        b64encodeBytes B),
       ("data:image/png;base64,".toList ++ b64encodeBytes B,
        b64encodeBytes B)] := by
    have hstep1 := findB64_span (b64encodeBytes B)
      (' ' :: ("data:image/png;base64,".toList ++ b64encodeBytes B))
      hpne hall (by decide : isB64Char ' ' = false)
    have hstep2 : findB64Go
        (' ' :: ("data:image/png;base64,".toList ++ b64encodeBytes B)) 0 =
        findB64Go ("data:image/png;base64,".toList ++ b64encodeBytes B) 0 :=
      findB64Go_cons_none ' ' _ (matchB64At_cons_ne ' ' _ (by decide))
    have hstep3 : findB64Go
        ("data:image/png;base64,".toList ++ b64encodeBytes B) 0 =
        [("data:image/png;base64,".toList ++ b64encodeBytes B,
          b64encodeBytes B)] := by
      have h := findB64_span (b64encodeBytes B) [] hpne hall trivial
      rw [List.append_nil] at h
      rw [h]
      rfl
    unfold findB64
    rw [hstep1, hstep2, hstep3]
  have hfu : findURL ("data:image/png;base64,".toList ++ b64encodeBytes B ++
      (' ' :: ("data:image/png;base64,".toList ++ b64encodeBytes B))) =
      [] := findURL_two_spans_nil _ _ (by decide) hall
  have hpref : ("data:image/png;base64,".toList ++
      b64encodeBytes B).isPrefixOf
      (' ' :: ("data:image/png;base64,".toList ++ b64encodeBytes B)) =
      false :=
    isPrefixOf_false_of_head_ne 'd' ' '
      ("ata:image/png;base64,".toList ++ b64encodeBytes B)
      ("data:image/png;base64,".toList ++ b64encodeBytes B) (by decide)
  have hself : ∀ ph : Str, replaceAll
      ("data:image/png;base64,".toList ++ b64encodeBytes B) ph
      ("data:image/png;base64,".toList ++ b64encodeBytes B) = ph := by
    intro ph
    have hstep : replaceAll
        ("data:image/png;base64,".toList ++ b64encodeBytes B) ph
        ("data:image/png;base64,".toList ++ b64encodeBytes B) =
        replaceAll ("data:image/png;base64,".toList ++ b64encodeBytes B) ph
          (("data:image/png;base64,".toList ++ b64encodeBytes B) ++ []) :=
      congrArg
        (replaceAll ("data:image/png;base64,".toList ++ b64encodeBytes B) ph)
        (List.append_nil _).symm
    rw [hstep, replaceAll_head _ ph [] hspanne, replaceAll_nil,
      List.append_nil]
  have htext1 : replaceAll
      ("data:image/png;base64,".toList ++ b64encodeBytes B)
      (b64Placeholder "out".toList
        ("image_".toList ++ natStr 1 ++ ".png".toList))
      ("data:image/png;base64,".toList ++ b64encodeBytes B ++
        (' ' :: ("data:image/png;base64,".toList ++ b64encodeBytes B))) =
      "[保存的图片: out/image_1.png] [保存的图片: out/image_1.png]".toList := by
    rw [replaceAll_head _ _ _ hspanne, replaceAll_cons_ne _ _ _ _ hpref,
      hself]
    rfl
  have hnc : containsSub
      ("data:image/png;base64,".toList ++ b64encodeBytes B)
      "[保存的图片: out/image_1.png] [保存的图片: out/image_1.png]".toList =
      false :=
    containsSub_false_of_head_notin 'd'
      ("ata:image/png;base64,".toList ++ b64encodeBytes B)
      "[保存的图片: out/image_1.png] [保存的图片: out/image_1.png]".toList
      (by decide)
  have htext2 : replaceAll
      ("data:image/png;base64,".toList ++ b64encodeBytes B)
      (b64Placeholder "out".toList
        ("image_".toList ++ natStr (1 + 1) ++ ".png".toList))
      "[保存的图片: out/image_1.png] [保存的图片: out/image_1.png]".toList =
      "[保存的图片: out/image_1.png] [保存的图片: out/image_1.png]".toList :=
    replaceAll_not_contained _ _ _ hnc
  have hrun := processB64_two_dup "out".toList
    ("data:image/png;base64,".toList ++ b64encodeBytes B)
    (b64encodeBytes B) B _ _ (save_b64_of_encode B hB) _ htext1 htext2
  refine ⟨?_, ?_, by decide, by decide, by decide⟩
  · rw [save_mixed_content_files, hfb, hfu, hrun]
    rfl
  · rw [save_mixed_content_ok _ _ _ rfl rfl, hfb, hfu, hrun]
    rfl

/-- Witness for C10 at B = the bytes of "ABC". -/
theorem c10_duplicate_spans_witness :
    ((save_mixed_content
      ("data:image/png;base64,".toList ++ b64encodeBytes [65, 66, 67] ++
        (' ' :: ("data:image/png;base64,".toList ++
          b64encodeBytes [65, 66, 67])))
      "out".toList ⟨[], [], true, true⟩).files =
      [ImgFile.b64 "image_1.png".toList [65, 66, 67],
       ImgFile.b64 "image_2.png".toList [65, 66, 67]]) ∧
    containsSub "image_2".toList
      "[保存的图片: out/image_1.png] [保存的图片: out/image_1.png]".toList
      = false :=
  ⟨(c10_duplicate_spans [65, 66, 67] (by decide) (by decide)).1,
   (c10_duplicate_spans [65, 66, 67] (by decide) (by decide)).2.2.1⟩

/-- Witness for C2 (amended): a concrete run raises nothing, and a failed
per-image save at concrete arguments skips to the remaining matches. -/
theorem c2_error_containment_witness :
    (save_mixed_content "hello".toList "out".toList
      ⟨[], [], true, true⟩).raised = false ∧
    processB64 "out".toList [("x".toList, "y".toList)] [false] 1
      "t".toList = processB64 "out".toList [] [] 1 "t".toList :=
  ⟨c2_error_containment.1 "hello".toList "out".toList ⟨[], [], true, true⟩,
   c2_error_containment.2.1 "out".toList "x".toList "y".toList [] [] 1
     "t".toList⟩

/-- Witness for C4 (amended) at the attachments-bearing message. -/
theorem c4_vendor_fields_witness :
    response_content_fallback
      ⟨"hi".toList,
        [("attachments".toList, FieldVal.list [ImgVal.str "QQ==".toList])]⟩ =
      "hi".toList ++ imagesContrib
        ⟨"hi".toList,
          [("attachments".toList,
            FieldVal.list [ImgVal.str "QQ==".toList])]⟩ :=
  (c4_vendor_fields
    ⟨"hi".toList,
      [("attachments".toList, FieldVal.list [ImgVal.str "QQ==".toList])]⟩).2.1

/-- Witness for C7: the concrete two-base64-one-URL scenario. -/
theorem c7_shared_counter_witness :
    (save_mixed_content
      "A data:image/png;base64,QUJD B data:image/jpeg;base64,REVG C http://a.com/x.png D".toList
      "out".toList ⟨[], [some "image/png".toList], true, true⟩).files =
      [ImgFile.b64 "image_1.png".toList [65, 66, 67],
       ImgFile.b64 "image_2.png".toList [68, 69, 70],
       ImgFile.url "image_url_3.png".toList "http://a.com/x.png".toList] :=
  c7_shared_counter.2.1
